import Mathlib

/-!
# Verification of `kitty-zoxide-sessions`

A shallow embedding of `kitty-zoxide-sessions.py`, a terminal session
launcher bridging zoxide (a directory-frecency tool) with kitty session
files, together with proofs about its components.

Modelling conventions:
* Strings are Lean `String`s (kernel-level `List Char`), matching Python
  `str` for the ASCII/UTF-8 data the program handles.
* Python library routines used by the code (`str.replace`, `str.strip`,
  `str.lower`, `re.sub` with the concrete ANSI regex, `pathlib.Path.name`,
  `pathlib.Path.stem`, `sorted`, `dict.setdefault`) are embedded as
  explicit structurally recursive functions so that every definition
  evaluates inside the kernel (`decide` / `rfl`).
* The filesystem is modelled explicitly: the session directory is a list
  of `(filename, content)` pairs plus lists of filenames whose write or
  unlink raises `OSError`; external processes (fzf, zoxide, kitten, the
  editor) are oracles passed as parameters describing their outcome.
* Functions that can raise return `Option`/`Except`; functions returning
  "`int` error code or value" return a `Sum`.
-/

namespace KittyZoxide

/-! ## Python `str.replace`

`str.replace(pat, rep)` replaces every non-overlapping occurrence of
`pat`, scanning left to right and continuing after each replacement
without re-scanning the replaced text.  The `fuel` argument (instantiated
with the length of the string) only makes the recursion structural; each
step consumes at least one character.  The program only calls this with
the non-empty placeholder tokens, so the `pat = []` behaviour is
irrelevant (guarded away in the step condition). -/
def replaceAllFuel (pat rep : List Char) : Nat → List Char → List Char
  | _, [] => []
  | 0, s => s
  | fuel + 1, c :: rest =>
    if pat ≠ [] ∧ pat.isPrefixOf (c :: rest) then
      rep ++ replaceAllFuel pat rep fuel (rest.drop (pat.length - 1))
    else
      c :: replaceAllFuel pat rep fuel rest

/-- Python `s.replace(pat, rep)` on character lists. -/
def replaceAll (pat rep s : List Char) : List Char :=
  replaceAllFuel pat rep s.length s

/-- Python `s.replace(pat, rep)` on strings. -/
def pyReplace (s pat rep : String) : String :=
  ⟨replaceAll pat.data rep.data s.data⟩

/-- The position of the leftmost occurrence of `pat` in a string, as the
text before it and the text after it (`none` when `pat` does not occur).
For non-empty `pat` the remainder after an occurrence starting at
`c :: rest` is `(c :: rest).drop pat.length = rest.drop (pat.length - 1)`. -/
def firstSplit (pat : List Char) : List Char → Option (List Char × List Char)
  | [] => none
  | c :: rest =>
    if pat.isPrefixOf (c :: rest) then some ([], rest.drop (pat.length - 1))
    else (firstSplit pat rest).map (fun q => (c :: q.1, q.2))

/-! ## The two template placeholders and rendering (`session_data`, line 260)

`session_data` renders a template by
`template.replace("@@session-path@@", session_path).replace("@@session@@", session_name)`:
every occurrence of the path placeholder is replaced first, then every
occurrence of the session placeholder. -/

def sessionPathToken : String := "@@session-path@@"

def sessionToken : String := "@@session@@"

/-- The rendering step of `session_data`: path placeholder first, then
session placeholder — exactly the order the code uses. -/
def renderTemplate (template session_path session_name : String) : String :=
  pyReplace (pyReplace template sessionPathToken session_path) sessionToken session_name

/-- The same two substitutions applied in the opposite order.  Used to
state (and refute) the order-independence part of the spec. -/
def renderTemplateSessionFirst (template session_path session_name : String) : String :=
  pyReplace (pyReplace template sessionToken session_name) sessionPathToken session_path

/-! ## ANSI stripping (`strip_ansi`, lines 52-56)

`ANSI_ESCAPE_RE = re.compile(r"\x1b\[[0-9;]*m")`; `strip_ansi` removes
every match.  Since `m` is not in the body class `[0-9;]`, the regex is
deterministic: after `ESC [` consume digits and semicolons and require a
closing `m`; if anything else appears there is no match at this position
and scanning resumes one character further. -/

def isAnsiBodyChar (c : Char) : Bool := c.isDigit || c == ';'

/-- Consume `[0-9;]*m` and return the remaining text, or `none` when the
escape sequence is not closed by `m`. -/
def ansiTail : List Char → Option (List Char)
  | [] => none
  | c :: rest =>
    if c = 'm' then some rest
    else if isAnsiBodyChar c then ansiTail rest
    else none

/-- After an escape character: require `[`, then `[0-9;]*m`; `some` of
the remaining text when the whole sequence matched. -/
def ansiStart : List Char → Option (List Char)
  | [] => none
  | c :: rest => if c = '[' then ansiTail rest else none

/-- `re.sub` with the ANSI regex, as structural recursion on fuel (the
length of the input); every step consumes at least one character.  At an
escape character a full match is removed; otherwise (and on a partial
match) the character is kept and scanning resumes one character on. -/
def stripAnsiFuel : Nat → List Char → List Char
  | _, [] => []
  | 0, s => s
  | fuel + 1, c :: rest =>
    if c = '\x1b' then
      match ansiStart rest with
      | some rest3 => stripAnsiFuel fuel rest3
      | none => c :: stripAnsiFuel fuel rest
    else c :: stripAnsiFuel fuel rest

/-- `strip_ansi` on character lists. -/
def stripAnsiL (l : List Char) : List Char := stripAnsiFuel l.length l

/-- `strip_ansi(text)`: remove every `ESC [ [0-9;]* m` sequence. -/
def strip_ansi (s : String) : String := ⟨stripAnsiL s.data⟩

/-- `text` contains no escape character, hence no ANSI sequence. -/
def EscFree (s : String) : Prop := '\x1b' ∉ s.data

/-! ## Small Python string/path helpers -/

/-- Split a character list at every occurrence of the character `c`
(like Python `str.split(c)`): the result is the list of chunks. -/
def splitOnChar (c : Char) : List Char → List (List Char)
  | [] => [[]]
  | a :: rest =>
    match splitOnChar c rest with
    | [] => [[]]
    | h :: t => if a = c then [] :: h :: t else (a :: h) :: t

/-- Python `str.strip()`: drop leading and trailing whitespace. -/
def pyStrip (s : String) : String :=
  ⟨((s.data.dropWhile Char.isWhitespace).reverse.dropWhile Char.isWhitespace).reverse⟩

/-- Python `str.lower()` (ASCII, which is all the program compares). -/
def pyLower (s : String) : String := ⟨s.data.map Char.toLower⟩

/-- `pathlib.Path(p).name` for POSIX paths: the last path component,
with empty components and `.` components dropped (pathlib normalises
them away); `""` for paths like `/`, `.` or the empty string. -/
def baseName (p : String) : String :=
  ⟨((splitOnChar '/' p.data).filter (fun s => !(s.isEmpty) && !(s == ['.']))).getLastD []⟩

/-- Index of the last `.` in a character list, if any. -/
def lastDotIdx : List Char → Option Nat
  | [] => none
  | c :: rest =>
    match lastDotIdx rest with
    | some k => some (k + 1)
    | none => if c = '.' then some 0 else none

/-- `pathlib.PurePath(fname).stem`: the file name without its last
suffix; a dot at position 0 (hidden file) or at the very end does not
start a suffix. -/
def stemOf (fname : String) : String :=
  match lastDotIdx fname.data with
  | some k => if 0 < k ∧ k < fname.data.length - 1 then ⟨fname.data.take k⟩ else fname
  | none => fname

/-- Membership of a string in a list of strings (Python `in` on a
set/list of strings). -/
def memStr : List String → String → Bool
  | [], _ => false
  | y :: rest, x => if y = x then true else memStr rest x

/-- First value bound to a key in an association list (Python
`dict.get` for the insertion-ordered dicts the program builds, and the
content lookup of the modelled filesystem). -/
def lookupStr : List (String × String) → String → Option String
  | [], _ => none
  | e :: rest, k => if e.1 = k then some e.2 else lookupStr rest k

/-- Remove every entry with the given key (deleting a file from the
modelled directory; filenames are unique, so at most one entry). -/
def removeFile : List (String × String) → String → List (String × String)
  | [], _ => []
  | e :: rest, f => if e.1 = f then removeFile rest f else e :: removeFile rest f

/-! ## Code-point comparison of strings

Python compares strings lexicographically by code point (`sorted` in
`list_session_files` uses it).  Lean's built-in `String` order is
kernel-opaque (`String.ltb` recurses on byte iterators), so the
comparison is embedded directly. -/

/-- Lexicographic ≤ on character lists by code point. -/
def leChars : List Char → List Char → Bool
  | [], _ => true
  | _ :: _, [] => false
  | a :: as, b :: bs =>
    if a.toNat < b.toNat then true
    else if b.toNat < a.toNat then false
    else leChars as bs

/-- Python string ≤ (code-point lexicographic). -/
def pyStrLe (a b : String) : Prop := leChars a.data b.data = true

instance : DecidableRel pyStrLe := fun a b => by unfold pyStrLe; infer_instance

/-! ## Labels (`SessionSelection.label`, lines 307-308) -/

/-- `label(label_text, ansi)`: bold-decorate the tag when ANSI is on. -/
def label (label_text : String) (ansi : Bool) : String :=
  if ansi then "\x1b[1m" ++ label_text ++ "\x1b[0m" else label_text

/-! ## The selector (`select_item`, lines 70-88)

The outcome of the external fzf process is an oracle: either the binary
is missing (`FileNotFoundError`) or the process ran and produced a
return code and stdout. -/

/-- Outcome of running an external process. -/
inductive ProcResult where
  | missing : ProcResult
  | ran : Int → String → ProcResult
deriving DecidableEq

/-- The fzf command line built by `select_item` (`--ansi` inserted at
index 1 when ANSI is on). -/
def fzf_command (prompt : String) (ansi : Bool) : List String :=
  if ansi then ["fzf", "--ansi", "--reverse", "--no-sort", "--prompt", prompt]
  else ["fzf", "--reverse", "--no-sort", "--prompt", prompt]

/-- `select_item(candidates, prompt, ansi)`.  The result is
`(selection, status, emitted stderr messages)`: status 0 with the
stripped stdout on exit 0, status 1 with an error message when the fzf
binary is missing, status 2 with an empty selection on non-zero exit.
The third component embeds the `emit(..., stderr=True)` call. -/
def select_item (_candidates _prompt : String) (_ansi : Bool) (proc : ProcResult) :
    String × Int × List String :=
  match proc with
  | .missing => ("", 1, ["kitty-zoxide-sessions: fzf command not found"])
  | .ran rc out => if rc ≠ 0 then ("", 2, []) else (pyStrip out, 0, [])

/-! ## The session directory (filesystem model)

One directory of session files: `entries` maps filename to content;
`badWrites` / `badDeletes` are the filenames whose `write_text` /
`unlink` raises `OSError`. -/

structure SessionDir where
  dirExists : Bool
  entries : List (String × String)
  badWrites : List String
  badDeletes : List String
deriving DecidableEq

/-- The session file suffix. -/
def sessionExt : String := ".kitty-session"

/-- Whether a filename starts with a dot (hidden; `Path.glob("*...")`
never matches it). -/
def startsWithDot (s : String) : Bool :=
  match s.data with
  | '.' :: _ => true
  | _ => false

/-- Whether `Path.glob("*.kitty-session")` matches the filename. -/
def globSessionMatch (fname : String) : Bool :=
  sessionExt.data.isSuffixOf fname.data && !(startsWithDot fname)

/-- `list_session_files(session_dir)` (lines 91-95): empty when the
directory does not exist, otherwise the matching filenames sorted by
code point (Python `sorted`; the shared directory prefix makes path
order filename order).  Results are filenames within the directory. -/
def list_session_files (d : SessionDir) : List String :=
  if d.dirExists then
    List.insertionSort pyStrLe ((d.entries.map Prod.fst).filter globSessionMatch)
  else []

/-- `Path.write_text` on the directory model: replaces the file's
content, raising (`none`) for filenames whose write fails. -/
def writeFile (d : SessionDir) (fname content : String) : Option SessionDir :=
  if memStr d.badWrites fname then none
  else some { d with entries := removeFile d.entries fname ++ [(fname, content)] }

/-- `Path.unlink` on the directory model: removes the file; raises
(`none`) when the file is absent or its unlink fails. -/
def unlinkFile (d : SessionDir) (fname : String) : Option SessionDir :=
  if (lookupStr d.entries fname).isSome && !(memStr d.badDeletes fname) then
    some { d with entries := removeFile d.entries fname }
  else none

/-! ## Templates (`session_data`, lines 238-260)

Template files live outside the session directory; `tmplFS` maps
template paths to contents, a read raising `OSError` when the path is
absent.  `Path(__file__).with_name("default.kitty-session")` is the
bundled default template path (the script directory prefix is elided). -/

def defaultTemplatePath : String := "default.kitty-session"

/-- Modelled from the spec: the bundled `default.kitty-session` template
file is not part of the sources here; the spec (§8) says the created
session file is rendered "from the default template containing the
literal substitutions", and the repository's tests check that the
rendered result contains `new_tab <name>`, `cd <path>` and
`launch --title "<name>"`. -/
def default_template : String :=
  "new_tab @@session@@\ncd @@session-path@@\nlaunch --title \"@@session@@\"\n"

/-- `session_data(session_path, session_name, template_path)`: read the
first readable of `[template_path, default]` and render it; `inr 1` when
every candidate read fails. -/
def session_data (tmplFS : List (String × String))
    (session_path session_name : String) (template_path : Option String) :
    Sum String Int :=
  let tcands := (match template_path with | some p => [p] | none => []) ++ [defaultTemplatePath]
  match tcands.findSome? (fun p => lookupStr tmplFS p) with
  | none => Sum.inr 1
  | some tpl => Sum.inl (renderTemplate tpl session_path session_name)

/-- `ensure_session_file(session_dir, session_name, session_path, debug,
template_path)` (lines 263-288): return the existing file's path
untouched, otherwise render and write it; `inr 1` on template or write
failure.  `dirPath` is the session directory's path string, used to form
the returned `Path`. -/
def ensure_session_file (d : SessionDir) (dirPath session_name session_path : String)
    (_debug : Bool) (tmplFS : List (String × String)) (template_path : Option String) :
    SessionDir × Sum String Int :=
  let fname := session_name ++ sessionExt
  if (lookupStr d.entries fname).isSome then (d, Sum.inl (dirPath ++ "/" ++ fname))
  else
    match session_data tmplFS session_path session_name template_path with
    | Sum.inr code => (d, Sum.inr code)
    | Sum.inl data =>
      match writeFile d fname data with
      | none => (d, Sum.inr 1)
      | some d2 => (d2, Sum.inl (dirPath ++ "/" ++ fname))

/-! ## Delete operations (lines 152-227) -/

/-- `DeleteAllSessions.confirm_delete_all`: `input()` modelled as
`Option String` (`none` = `EOFError`); the typed response is stripped,
lowercased, and compared to `"yes"`. -/
def confirm_delete_all (resp : Option String) : Bool :=
  match resp with
  | none => false
  | some r => pyLower (pyStrip r) == "yes"

/-- The deletion loop of `DeleteAllSessions.run`: unlink each listed
file, collecting whether any unlink failed; a failure does not stop the
batch. -/
def deleteBatch (d : SessionDir) : List String → SessionDir × Bool
  | [] => (d, false)
  | f :: rest =>
    match unlinkFile d f with
    | some d2 => deleteBatch d2 rest
    | none =>
      let r := deleteBatch d rest
      (r.1, true)

/-- `DeleteAllSessions.run`: exit 1 when there is nothing to delete or
the confirmation is declined (directory untouched); otherwise delete the
batch and exit 1 iff any deletion failed. -/
def deleteAllRun (d : SessionDir) (resp : Option String) : SessionDir × Int :=
  let files := list_session_files d
  if files.isEmpty then (d, 1)
  else if !(confirm_delete_all resp) then (d, 1)
  else
    let r := deleteBatch d files
    if r.2 then (r.1, 1) else (r.1, 0)

/-- `DeleteSession.run` (lines 196-227): select a stem from the listed
session files, then unlink `session_dir/<selection>.kitty-session` —
the target is formed from the selection alone.  The third component
records the full path of the file whose unlink was attempted. -/
def deleteSessionRun (d : SessionDir) (dirPath : String) (ansi : Bool)
    (selProc : ProcResult) : SessionDir × Int × List String :=
  let files := list_session_files d
  if files.isEmpty then (d, 1, [])
  else
    let cands := String.intercalate "\n" (files.map stemOf)
    let sel := select_item cands "delete session > " ansi selProc
    if sel.2.1 ≠ 0 then (d, sel.2.1, [])
    else if sel.1 = "" then (d, 1, [])
    else
      let fname := sel.1 ++ sessionExt
      match unlinkFile d fname with
      | none => (d, 1, [dirPath ++ "/" ++ fname])
      | some d2 => (d2, 0, [dirPath ++ "/" ++ fname])

/-! ## Candidate reconciliation (`SessionSelection.run`, lines 310-392) -/

/-- The kind tags `SESSION_ENTRY = "session"` and `PATH_ENTRY = "path"`. -/
inductive EntryKind where
  | sessionEntry : EntryKind
  | pathEntry : EntryKind
deriving DecidableEq

/-- One candidate tuple `(label, kind, value)` of the selection round. -/
structure Entry where
  label : String
  kind : EntryKind
  value : String
deriving DecidableEq

/-- The non-empty lines of the zoxide output (`splitlines` + truthiness
filter; zoxide emits one path per line). -/
def zoxidePathsOf (out : String) : List String :=
  ((splitOnChar '\n' out.data).map (fun l => (⟨l⟩ : String))).filter (fun p => p ≠ "")

/-- `zoxide_by_name`: a dict built with `setdefault(Path(path).name,
path)`, so the first path with a given base name wins. -/
def zoxideByName (paths : List String) : List (String × String) :=
  paths.foldl
    (fun m p => if (lookupStr m (baseName p)).isSome then m else m ++ [(baseName p, p)]) []

/-- The candidate entries (lines 327-337): one entry per (sorted)
session file, labelled with its stem, followed by one entry per zoxide
path whose base name is not an existing session name, in zoxide order. -/
def buildEntries (sessionFiles : List String) (zoxide_paths : List String)
    (ansi : Bool) (dirPath : String) : List Entry :=
  let session_names := sessionFiles.map stemOf
  let filtered_zoxide := zoxide_paths.filter (fun p => !(memStr session_names (baseName p)))
  let session_label := label "[session]" ansi
  let path_label := label "[zoxide]" ansi
  (sessionFiles.map (fun f =>
      Entry.mk (session_label ++ " " ++ stemOf f) EntryKind.sessionEntry (dirPath ++ "/" ++ f)))
    ++ filtered_zoxide.map (fun p => Entry.mk (path_label ++ " " ++ p) EntryKind.pathEntry p)

/-- First entry whose ANSI-stripped label equals the given
already-stripped selection (the `next(...)` at lines 354-357). -/
def findEntry : List Entry → String → Option Entry
  | [], _ => none
  | e :: rest, sp => if strip_ansi e.label = sp then some e else findEntry rest sp

/-- Resolve the raw selector output against the candidate list: strip
ANSI codes from both sides, first exact match wins. -/
def resolveSelection (entries : List Entry) (selection : String) : Option Entry :=
  findEntry entries (strip_ansi selection)

/-- Effects observable outside the process: filesystem changes made by
logging setup and invocations of external processes. -/
inductive Effect where
  | mkdirLogDir : Effect
  | createLogFile : Effect
  | procRun : List String → Effect
deriving DecidableEq

/-- `LaunchSession.handle_session`: run
`kitten @ action goto_session <file>` and propagate its exit code; 1
when the kitten binary is missing. -/
def launch_handle_session (kitten : ProcResult) (session_file : String) :
    Int × List Effect :=
  match kitten with
  | .missing => (1, [])
  | .ran rc _ => (rc, [Effect.procRun ["kitten", "@", "action", "goto_session", session_file]])

/-- `run_zoxide` (lines 290-305): `none` when the zoxide binary is
missing or exits non-zero, otherwise its stdout. -/
def run_zoxide (z : ProcResult) : Option String :=
  match z with
  | .missing => none
  | .ran rc out => if rc ≠ 0 then none else some out

/-- `SessionSelection.run`: query zoxide, create the session directory,
build and show the candidate list, resolve the selection, ensure the
session file for a zoxide pick, and hand the file to the
operation-specific handler.  `mkdirOk` models whether
`session_dir.mkdir` succeeds; `handler` is `handle_session`. -/
def sessionSelectionRun (d : SessionDir) (dirPath : String) (ansi debug : Bool)
    (template_path : Option String) (tmplFS : List (String × String))
    (z : ProcResult) (mkdirOk : Bool) (selProc : ProcResult)
    (handler : String → Int × List Effect) : SessionDir × Int × List Effect :=
  match run_zoxide z with
  | none => (d, 1, [])
  | some out =>
    let zoxide_paths := zoxidePathsOf out
    if !mkdirOk then (d, 1, [])
    else
      let d1 := { d with dirExists := true }
      let session_files := list_session_files d1
      let entries := buildEntries session_files zoxide_paths ansi dirPath
      let candidates := String.intercalate "\n" (entries.map Entry.label)
      if candidates = "" then (d1, 1, [])
      else
        let sel := select_item candidates "session > " ansi selProc
        if sel.2.1 ≠ 0 then (d1, sel.2.1, [])
        else if sel.1 = "" then (d1, 1, [])
        else
          match resolveSelection entries sel.1 with
          | none => (d1, 1, [])
          | some entry =>
            match entry.kind with
            | EntryKind.sessionEntry =>
              -- session_path_from_zoxide := (zoxideByName zoxide_paths).lookup of the
              -- stem, used only for debug logging
              let h := handler entry.value
              (d1, h.1, h.2)
            | EntryKind.pathEntry =>
              let session_name := baseName entry.value
              let er := ensure_session_file d1 dirPath session_name entry.value debug
                tmplFS template_path
              match er.2 with
              | Sum.inr code => (er.1, code, [])
              | Sum.inl session_file =>
                let h := handler session_file
                (er.1, h.1, h.2)

/-! ## Logging setup and main dispatch (lines 29-40, 434-481) -/

/-- The state `setup_logging` runs against: whether the module logger
already has handlers, whether the log directory and file exist, and
whether `log_dir.mkdir` succeeds. -/
structure LogWorld where
  hasHandlers : Bool
  logDirExists : Bool
  logFileExists : Bool
  mkdirOk : Bool

/-- `setup_logging(log_dir)`: a no-op when a handler is installed;
otherwise `log_dir.mkdir(parents=True, exist_ok=True)` — which RAISES
`OSError` on failure, there is no try/except in the function — then
`logging.FileHandler` opens (creating if missing) the log file.  Returns
the filesystem effects performed, or the propagated exception. -/
def setup_logging (w : LogWorld) : Except String (List Effect) :=
  if w.hasHandlers then Except.ok []
  else if !w.mkdirOk then Except.error "OSError"
  else
    Except.ok ((if w.logDirExists then [] else [Effect.mkdirLogDir])
      ++ (if w.logFileExists then [] else [Effect.createLogFile]))

/-- The parsed command-line flags. -/
structure Flags where
  debug : Bool
  edit : Bool
  delete : Bool
  deleteAll : Bool
  ansi : Bool
  autoClose : Bool
  template : Option String

/-- The four operation variants `main` dispatches to. -/
inductive Dispatch where
  | deleteAllOp : Dispatch
  | deleteOp : Dispatch
  | editOp : Dispatch
  | launchOp : Dispatch
deriving DecidableEq

/-- Where `main` stands after flag validation: an early exit code, or
the selected operation. -/
inductive MainStage where
  | exited : Int → MainStage
  | dispatched : Dispatch → MainStage
deriving DecidableEq

/-- `main` up to operation dispatch (lines 434-479): logging setup runs
first (its exception propagates), then the flag-combination checks, then
operation selection.  The `atexit` close-window registration happens
after validation and registers no effect by itself. -/
def mainUpToDispatch (f : Flags) (w : LogWorld) :
    Except String (List Effect × MainStage) :=
  match setup_logging w with
  | Except.error e => Except.error e
  | Except.ok effs =>
    if (f.edit && (f.delete || f.deleteAll)) = true then
      Except.ok (effs, MainStage.exited 1)
    else if (f.delete && f.deleteAll) = true then
      Except.ok (effs, MainStage.exited 1)
    else
      Except.ok (effs, MainStage.dispatched
        (if f.deleteAll = true then Dispatch.deleteAllOp
         else if f.delete = true then Dispatch.deleteOp
         else if f.edit = true then Dispatch.editOp
         else Dispatch.launchOp))

/-- An effect that changes the filesystem (anything but running an
external process). -/
def filesystemEffect : Effect → Bool
  | Effect.procRun _ => false
  | _ => true

/-- The entries kept by a confirmed batch delete: those not listed for
deletion, plus listed ones whose unlink fails. -/
def keepAfterBatch (entries : List (String × String)) (files bad : List String) :
    List (String × String) :=
  entries.filter (fun e => !(memStr files e.1) || memStr bad e.1)

/-! ## Lemmas: Python `str.replace` through `firstSplit` -/

theorem replaceAllFuel_nil (pat rep : List Char) (f : Nat) :
    replaceAllFuel pat rep f [] = [] := by
  cases f <;> rfl

theorem replaceAllFuel_congr (pat rep : List Char) :
    ∀ f1 f2 s, s.length ≤ f1 → s.length ≤ f2 →
      replaceAllFuel pat rep f1 s = replaceAllFuel pat rep f2 s := by
  intro f1
  induction f1 with
  | zero =>
    intro f2 s h1 _
    have hs : s = [] := List.length_eq_zero.mp (Nat.le_zero.mp h1)
    subst hs
    rw [replaceAllFuel_nil, replaceAllFuel_nil]
  | succ f ih =>
    intro f2 s h1 h2
    cases s with
    | nil => rw [replaceAllFuel_nil, replaceAllFuel_nil]
    | cons c rest =>
      cases f2 with
      | zero => exact absurd h2 (by simp)
      | succ f2 =>
        simp only [List.length_cons, Nat.add_le_add_iff_right] at h1 h2
        have hd : (rest.drop (pat.length - 1)).length ≤ rest.length := by
          rw [List.length_drop]; omega
        by_cases hcond : pat ≠ [] ∧ pat.isPrefixOf (c :: rest)
        · simp only [replaceAllFuel, if_pos hcond]
          congr 1
          exact ih _ _ (by omega) (by omega)
        · simp only [replaceAllFuel, if_neg hcond]
          congr 1
          exact ih _ rest h1 h2

theorem replaceAll_cons (pat rep : List Char) (c : Char) (rest : List Char) :
    replaceAll pat rep (c :: rest) =
      if pat ≠ [] ∧ pat.isPrefixOf (c :: rest) then
        rep ++ replaceAll pat rep (rest.drop (pat.length - 1))
      else c :: replaceAll pat rep rest := by
  unfold replaceAll
  simp only [List.length_cons, replaceAllFuel]
  have hd : (rest.drop (pat.length - 1)).length ≤ rest.length := by
    rw [List.length_drop]; omega
  by_cases hcond : pat ≠ [] ∧ pat.isPrefixOf (c :: rest)
  · rw [if_pos hcond, if_pos hcond]
    congr 1
    exact replaceAllFuel_congr pat rep _ _ _ (by omega) le_rfl
  · rw [if_neg hcond, if_neg hcond]

theorem replaceAll_of_firstSplit_none (pat rep : List Char) :
    ∀ s, firstSplit pat s = none → replaceAll pat rep s = s := by
  intro s
  induction s with
  | nil => intro _; rfl
  | cons c rest ih =>
    intro h
    rw [replaceAll_cons]
    by_cases hpre : pat.isPrefixOf (c :: rest)
    · simp only [firstSplit, if_pos hpre] at h
      exact absurd h (by simp)
    · simp only [firstSplit, if_neg hpre, Option.map_eq_none'] at h
      rw [if_neg (fun hc => hpre hc.2), ih h]

theorem replaceAll_of_firstSplit_some (pat rep : List Char) (hp : pat ≠ []) :
    ∀ s a b, firstSplit pat s = some (a, b) →
      replaceAll pat rep s = a ++ rep ++ replaceAll pat rep b := by
  intro s
  induction s with
  | nil => intro a b h; simp [firstSplit] at h
  | cons c rest ih =>
    intro a b h
    rw [replaceAll_cons]
    by_cases hpre : pat.isPrefixOf (c :: rest)
    · simp only [firstSplit, if_pos hpre, Option.some.injEq, Prod.mk.injEq] at h
      obtain ⟨ha, hb⟩ := h
      rw [if_pos ⟨hp, hpre⟩, ← ha, ← hb]
      rfl
    · simp only [firstSplit, if_neg hpre] at h
      rw [if_neg (fun hc => hpre hc.2)]
      cases hfs : firstSplit pat rest with
      | none => rw [hfs] at h; simp at h
      | some q =>
        rw [hfs] at h
        simp only [Option.map_some', Option.some.injEq, Prod.mk.injEq] at h
        obtain ⟨ha, hb⟩ := h
        rw [ih q.1 q.2 (by rw [hfs]), ← ha, ← hb]
        simp

/-! ## Lemmas: the code-point order is total and transitive -/

theorem leChars_total : ∀ a b, leChars a b = true ∨ leChars b a = true := by
  intro a
  induction a with
  | nil => intro b; left; rfl
  | cons x as ih =>
    intro b
    cases b with
    | nil => right; rfl
    | cons y bs =>
      by_cases h1 : x.toNat < y.toNat
      · left; simp [leChars, h1]
      · by_cases h2 : y.toNat < x.toNat
        · right; simp [leChars, h2]
        · rcases ih bs with h | h
          · left; simp [leChars, h1, h2, h]
          · right; simp [leChars, h1, h2, h]

theorem leChars_trans :
    ∀ a b c, leChars a b = true → leChars b c = true → leChars a c = true := by
  intro a
  induction a with
  | nil => intro b c _ _; rfl
  | cons x as ih =>
    intro b c hab hbc
    cases b with
    | nil => simp [leChars] at hab
    | cons y bs =>
      cases c with
      | nil => simp [leChars] at hbc
      | cons z cs =>
        simp only [leChars] at hab hbc ⊢
        by_cases hxy : x.toNat < y.toNat
        · by_cases hyz : y.toNat < z.toNat
          · rw [if_pos (show x.toNat < z.toNat by omega)]
          · by_cases hzy : z.toNat < y.toNat
            · rw [if_neg hyz, if_pos hzy] at hbc; exact absurd hbc (by simp)
            · rw [if_pos (show x.toNat < z.toNat by omega)]
        · by_cases hyx : y.toNat < x.toNat
          · rw [if_neg hxy, if_pos hyx] at hab; exact absurd hab (by simp)
          · by_cases hyz : y.toNat < z.toNat
            · rw [if_pos (show x.toNat < z.toNat by omega)]
            · by_cases hzy : z.toNat < y.toNat
              · rw [if_neg hyz, if_pos hzy] at hbc; exact absurd hbc (by simp)
              · rw [if_neg hxy, if_neg hyx] at hab
                rw [if_neg hyz, if_neg hzy] at hbc
                rw [if_neg (show ¬x.toNat < z.toNat by omega),
                  if_neg (show ¬z.toNat < x.toNat by omega)]
                exact ih bs cs hab hbc

instance : IsTotal String pyStrLe := ⟨fun a b => leChars_total a.data b.data⟩

instance : IsTrans String pyStrLe := ⟨fun a b c => leChars_trans a.data b.data c.data⟩

/-! ## Lemmas: ANSI stripping -/

theorem ansiTail_length : ∀ l r, ansiTail l = some r → r.length ≤ l.length := by
  intro l
  induction l with
  | nil => intro r h; simp [ansiTail] at h
  | cons c rest ih =>
    intro r h
    simp only [ansiTail] at h
    by_cases hm : c = 'm'
    · rw [if_pos hm] at h
      cases h
      simp
    · rw [if_neg hm] at h
      by_cases hb : isAnsiBodyChar c = true
      · rw [if_pos hb] at h
        exact le_trans (ih r h) (by simp)
      · rw [if_neg hb] at h
        exact absurd h (by simp)

theorem ansiStart_length : ∀ l r, ansiStart l = some r → r.length ≤ l.length := by
  intro l
  cases l with
  | nil => intro r h; simp [ansiStart] at h
  | cons c rest =>
    intro r h
    simp only [ansiStart] at h
    by_cases hc : c = '['
    · rw [if_pos hc] at h
      exact le_trans (ansiTail_length rest r h) (by simp)
    · rw [if_neg hc] at h
      exact absurd h (by simp)

theorem stripAnsiFuel_nil (f : Nat) : stripAnsiFuel f [] = [] := by
  cases f <;> rfl

theorem stripAnsiFuel_cons (f : Nat) (c : Char) (rest : List Char) :
    stripAnsiFuel (f + 1) (c :: rest) =
      if c = '\x1b' then
        match ansiStart rest with
        | some rest3 => stripAnsiFuel f rest3
        | none => c :: stripAnsiFuel f rest
      else c :: stripAnsiFuel f rest := rfl

theorem stripAnsiFuel_congr :
    ∀ f1 f2 s, s.length ≤ f1 → s.length ≤ f2 →
      stripAnsiFuel f1 s = stripAnsiFuel f2 s := by
  intro f1
  induction f1 with
  | zero =>
    intro f2 s h1 _
    have hs : s = [] := List.length_eq_zero.mp (Nat.le_zero.mp h1)
    subst hs
    rw [stripAnsiFuel_nil, stripAnsiFuel_nil]
  | succ f ih =>
    intro f2 s h1 h2
    cases s with
    | nil => rw [stripAnsiFuel_nil, stripAnsiFuel_nil]
    | cons c rest =>
      cases f2 with
      | zero => exact absurd h2 (by simp)
      | succ f2 =>
        simp only [List.length_cons, Nat.add_le_add_iff_right] at h1 h2
        rw [stripAnsiFuel_cons, stripAnsiFuel_cons]
        by_cases hc : c = '\x1b'
        · rw [if_pos hc, if_pos hc]
          cases hat : ansiStart rest with
          | some rest3 =>
            have hlen := ansiStart_length rest rest3 hat
            show stripAnsiFuel f rest3 = stripAnsiFuel f2 rest3
            exact ih f2 rest3 (by omega) (by omega)
          | none =>
            show c :: stripAnsiFuel f rest = c :: stripAnsiFuel f2 rest
            rw [ih f2 rest h1 h2]
        · rw [if_neg hc, if_neg hc, ih f2 rest h1 h2]

theorem stripAnsiL_nil : stripAnsiL [] = [] := rfl

theorem stripAnsiL_append_escFree (b : List Char) :
    ∀ a : List Char, '\x1b' ∉ a → stripAnsiL (a ++ b) = a ++ stripAnsiL b := by
  intro a
  induction a with
  | nil => intro _; rfl
  | cons c a' ih =>
    intro ha
    have hc : c ≠ '\x1b' := fun h => ha (h ▸ List.mem_cons_self c a')
    show stripAnsiFuel ((c :: (a' ++ b)).length) (c :: (a' ++ b)) = _
    simp only [List.length_cons]
    rw [stripAnsiFuel_cons, if_neg hc]
    rw [show stripAnsiFuel (a' ++ b).length (a' ++ b) = stripAnsiL (a' ++ b) from rfl,
      ih (fun h => ha (List.mem_cons_of_mem _ h))]
    simp

theorem stripAnsiL_escFree (s : List Char) (hs : '\x1b' ∉ s) : stripAnsiL s = s := by
  have h := stripAnsiL_append_escFree [] s hs
  simpa [stripAnsiL_nil] using h

theorem stripAnsiL_sgr (body r : List Char)
    (hb : ∀ c ∈ body, isAnsiBodyChar c = true) :
    stripAnsiL ('\x1b' :: '[' :: (body ++ 'm' :: r)) = stripAnsiL r := by
  have htail : ansiTail (body ++ 'm' :: r) = some r := by
    induction body with
    | nil => simp [ansiTail]
    | cons c bd ih =>
      have hbc : isAnsiBodyChar c = true := hb c (List.mem_cons_self c bd)
      have hcm : c ≠ 'm' := by
        intro h
        rw [h] at hbc
        exact absurd hbc (by decide)
      simp only [List.cons_append, ansiTail, if_neg hcm, if_pos hbc]
      exact ih (fun c hc => hb c (List.mem_cons_of_mem _ hc))
  have hstart : ansiStart ('[' :: (body ++ 'm' :: r)) = some r := by
    simp [ansiStart, htail]
  show stripAnsiFuel (('\x1b' :: '[' :: (body ++ 'm' :: r)).length) _ = _
  simp only [List.length_cons]
  rw [stripAnsiFuel_cons, if_pos rfl, hstart]
  show stripAnsiFuel (('[' :: (body ++ 'm' :: r)).length) r = _
  exact stripAnsiFuel_congr _ _ r (by simp; omega) le_rfl

/-! ## Lemmas: association lists and string membership -/

theorem lookupStr_append (l1 l2 : List (String × String)) (k : String) :
    lookupStr (l1 ++ l2) k = (lookupStr l1 k).orElse (fun _ => lookupStr l2 k) := by
  induction l1 with
  | nil => rfl
  | cons e rest ih =>
    simp only [List.cons_append, lookupStr]
    by_cases he : e.1 = k
    · rw [if_pos he, if_pos he]; rfl
    · rw [if_neg he, if_neg he]; exact ih

theorem memStr_iff (l : List String) (x : String) : memStr l x = true ↔ x ∈ l := by
  induction l with
  | nil => simp [memStr]
  | cons y rest ih =>
    simp only [memStr]
    by_cases h : y = x
    · simp [h]
    · rw [if_neg h]
      simp only [List.mem_cons, ih]
      exact ⟨fun hx => Or.inr hx, fun hx => hx.elim (fun he => absurd he.symm h) id⟩

theorem lookupStr_isSome_of_mem (l : List (String × String)) (x : String)
    (hx : x ∈ l.map Prod.fst) : (lookupStr l x).isSome = true := by
  induction l with
  | nil => simp at hx
  | cons e rest ih =>
    simp only [List.map_cons, List.mem_cons] at hx
    simp only [lookupStr]
    by_cases he : e.1 = x
    · simp [he]
    · rcases hx with hx | hx
      · exact absurd hx.symm he
      · simp [if_neg he, ih hx]

theorem lookupStr_removeFile (l : List (String × String)) (f g : String) (hg : g ≠ f) :
    lookupStr (removeFile l f) g = lookupStr l g := by
  induction l with
  | nil => rfl
  | cons e rest ih =>
    simp only [removeFile]
    by_cases he : e.1 = f
    · rw [if_pos he, ih]
      simp only [lookupStr]
      rw [if_neg (fun h => hg (he ▸ h).symm)]
    · rw [if_neg he]
      simp only [lookupStr]
      by_cases heg : e.1 = g
      · rw [if_pos heg, if_pos heg]
      · rw [if_neg heg, if_neg heg, ih]

theorem removeFile_eq_filter (l : List (String × String)) (f : String) :
    removeFile l f = l.filter (fun e => decide (e.1 ≠ f)) := by
  induction l with
  | nil => rfl
  | cons e rest ih =>
    simp only [removeFile, List.filter_cons]
    by_cases he : e.1 = f
    · simp [he, ih]
    · simp [he, ih]

/-! ## Lemmas: the first-wins name index built by `setdefault` -/

theorem zoxideByName_lookup_aux (n : String) :
    ∀ (ps : List String) (acc : List (String × String)),
      lookupStr
          (ps.foldl (fun m p =>
            if (lookupStr m (baseName p)).isSome then m else m ++ [(baseName p, p)]) acc) n
        = (lookupStr acc n).orElse
            (fun _ => (ps.filter (fun p => decide (baseName p = n))).head?) := by
  intro ps
  induction ps with
  | nil =>
    intro acc
    simp only [List.foldl_nil, List.filter_nil]
    cases h : lookupStr acc n <;> simp [h, Option.orElse]
  | cons p rest ih =>
    intro acc
    simp only [List.foldl_cons, List.filter_cons]
    by_cases hacc : (lookupStr acc (baseName p)).isSome = true
    · rw [if_pos hacc, ih acc]
      by_cases hbn : baseName p = n
      · obtain ⟨v, hv⟩ := Option.isSome_iff_exists.mp (hbn ▸ hacc)
        rw [hv]
        simp [Option.orElse]
      · simp [hbn]
    · rw [if_neg hacc, ih (acc ++ [(baseName p, p)]), lookupStr_append]
      have hnone : lookupStr acc (baseName p) = none :=
        Option.not_isSome_iff_eq_none.mp hacc
      by_cases hbn : baseName p = n
      · rw [← hbn, hnone]
        simp only [lookupStr, if_pos rfl, hbn]
        simp [Option.orElse]
      · simp only [lookupStr, if_neg hbn]
        cases h : lookupStr acc n <;> simp [Option.orElse, hbn]

theorem zoxideByName_lookup (ps : List String) (n : String) :
    lookupStr (zoxideByName ps) n
      = (ps.filter (fun p => decide (baseName p = n))).head? := by
  have h := zoxideByName_lookup_aux n ps []
  simpa [zoxideByName, Option.orElse] using h

/-! ## Lemmas: the batch delete loop -/

theorem deleteBatch_spec :
    ∀ (files : List String) (d : SessionDir), files.Nodup →
      (∀ f ∈ files, (lookupStr d.entries f).isSome = true) →
      deleteBatch d files
        = ({ d with entries := keepAfterBatch d.entries files d.badDeletes },
           files.any (fun f => memStr d.badDeletes f)) := by
  intro files
  induction files with
  | nil =>
    intro d _ _
    simp [deleteBatch, keepAfterBatch, memStr]
  | cons f rest ih =>
    intro d hnd hlk
    have hfr : f ∉ rest := (List.nodup_cons.mp hnd).1
    have hndr : rest.Nodup := (List.nodup_cons.mp hnd).2
    have hlf : (lookupStr d.entries f).isSome = true := hlk f (List.mem_cons_self f rest)
    simp only [deleteBatch]
    by_cases hbad : memStr d.badDeletes f = true
    · have hun : unlinkFile d f = none := by
        simp [unlinkFile, hbad]
      rw [hun]
      show ((deleteBatch d rest).1, true) = _
      rw [ih d hndr (fun g hg => hlk g (List.mem_cons_of_mem _ hg))]
      have hent : keepAfterBatch d.entries rest d.badDeletes
          = keepAfterBatch d.entries (f :: rest) d.badDeletes := by
        refine List.filter_congr (fun e _ => ?_)
        by_cases haf : e.1 = f
        · simp [memStr, haf, hbad, Bool.or_true]
        · have hfa : ¬f = e.1 := fun h => haf h.symm
          simp [memStr, hfa]
      show ({ d with entries := keepAfterBatch d.entries rest d.badDeletes }, true) = _
      rw [hent]
      simp [List.any_cons, hbad]
    · have hbf : memStr d.badDeletes f = false := by
        revert hbad
        cases memStr d.badDeletes f <;> simp
      have hun : unlinkFile d f
          = some { d with entries := removeFile d.entries f } := by
        simp [unlinkFile, hbf, hlf]
      rw [hun]
      show deleteBatch { d with entries := removeFile d.entries f } rest = _
      rw [ih { d with entries := removeFile d.entries f } hndr
        (fun g hg => by
          show (lookupStr (removeFile d.entries f) g).isSome = true
          rw [lookupStr_removeFile d.entries f g
            (fun hgf => hfr (hgf ▸ hg))]
          exact hlk g (List.mem_cons_of_mem _ hg))]
      have hent : keepAfterBatch (removeFile d.entries f) rest d.badDeletes
          = keepAfterBatch d.entries (f :: rest) d.badDeletes := by
        show (removeFile d.entries f).filter _ = _
        rw [removeFile_eq_filter, List.filter_filter]
        refine List.filter_congr (fun e _ => ?_)
        by_cases haf : e.1 = f
        · simp [memStr, haf, hbf]
        · have hfa : ¬f = e.1 := fun h => haf h.symm
          simp [memStr, haf, hfa]
      show ({ d with entries := keepAfterBatch (removeFile d.entries f) rest d.badDeletes },
        rest.any fun g => memStr d.badDeletes g) = _
      rw [hent]
      simp [List.any_cons, hbf]

/-! ## Lemmas: selection resolution -/

theorem findEntry_append_cons (pre post : List Entry) (e : Entry) (sp : String)
    (hpre : ∀ a ∈ pre, strip_ansi a.label ≠ sp) (he : strip_ansi e.label = sp) :
    findEntry (pre ++ e :: post) sp = some e := by
  induction pre with
  | nil => simp [findEntry, he]
  | cons a pre ih =>
    simp only [List.cons_append, findEntry]
    rw [if_neg (hpre a (List.mem_cons_self a pre))]
    exact ih (fun b hb => hpre b (List.mem_cons_of_mem _ hb))

theorem findEntry_eq_none (entries : List Entry) (sp : String)
    (h : ∀ a ∈ entries, strip_ansi a.label ≠ sp) :
    findEntry entries sp = none := by
  induction entries with
  | nil => rfl
  | cons a rest ih =>
    simp only [findEntry]
    rw [if_neg (h a (List.mem_cons_self a rest))]
    exact ih (fun b hb => h b (List.mem_cons_of_mem _ hb))

theorem stripAnsiL_decorated (t r : List Char) (ht : '\x1b' ∉ t) (hr : '\x1b' ∉ r) :
    stripAnsiL ('\x1b' :: '[' :: '1' :: 'm' :: (((t ++ ['\x1b', '[', '0', 'm']) ++ [' ']) ++ r))
      = (t ++ [' ']) ++ r := by
  have hassoc : ((t ++ ['\x1b', '[', '0', 'm']) ++ [' ']) ++ r
      = t ++ ('\x1b' :: '[' :: '0' :: 'm' :: (' ' :: r)) := by
    simp [List.append_assoc]
  rw [hassoc]
  have hs1 := stripAnsiL_sgr ['1'] (t ++ ('\x1b' :: '[' :: '0' :: 'm' :: (' ' :: r)))
    (by decide)
  rw [show ('\x1b' :: '[' :: '1' :: 'm' :: (t ++ ('\x1b' :: '[' :: '0' :: 'm' :: (' ' :: r))))
      = '\x1b' :: '[' :: (['1'] ++ 'm' :: (t ++ ('\x1b' :: '[' :: '0' :: 'm' :: (' ' :: r))))
    from rfl, hs1]
  rw [stripAnsiL_append_escFree _ t ht]
  have hs0 := stripAnsiL_sgr ['0'] (' ' :: r) (by decide)
  rw [show ('\x1b' :: '[' :: '0' :: 'm' :: (' ' :: r))
      = '\x1b' :: '[' :: (['0'] ++ 'm' :: (' ' :: r)) from rfl, hs0]
  rw [show (' ' :: r) = [' '] ++ r from rfl,
    stripAnsiL_append_escFree r [' '] (by decide), stripAnsiL_escFree r hr]
  simp [List.append_assoc]

/-! ## The claims -/

/-- C1, counterexample.  The claim asserts "at most one frecency
candidate per base name (first occurrence per name wins)" in the
candidate list, but `run` filters the zoxide paths only against the
session names and never deduplicates them among themselves: two frecency
paths with the same base name both appear as candidates. -/
theorem candidate_list_duplicate_base_names :
    (buildEntries [] ["/a/proj", "/b/proj"] false "/S").map Entry.value
        = ["/a/proj", "/b/proj"]
    ∧ (buildEntries [] ["/a/proj", "/b/proj"] false "/S").map Entry.kind
        = [EntryKind.pathEntry, EntryKind.pathEntry]
    ∧ baseName "/a/proj" = baseName "/b/proj" :=
  ⟨by decide, by decide, by decide⟩

/-- C1, amended.  The candidate list is all session entries first, in
the sorted order of `list_session_files` (sorted by code point), then
every frecency entry whose base name does not collide with a session
name, in frecency order (no per-name deduplication among frecency
entries); the `setdefault` name index, by which a shadowed frecency path
stays recoverable when a session entry is chosen, maps each base name to
the first frecency path carrying it. -/
theorem candidate_list_structure :
    ∀ (d : SessionDir) (out : String) (ansi : Bool) (dirPath : String),
      List.Sorted pyStrLe (list_session_files d)
      ∧ buildEntries (list_session_files d) (zoxidePathsOf out) ansi dirPath
          = (list_session_files d).map (fun f =>
              Entry.mk (label "[session]" ansi ++ " " ++ stemOf f) EntryKind.sessionEntry
                (dirPath ++ "/" ++ f))
            ++ ((zoxidePathsOf out).filter (fun p =>
                  !(memStr ((list_session_files d).map stemOf) (baseName p)))).map (fun p =>
                Entry.mk (label "[zoxide]" ansi ++ " " ++ p) EntryKind.pathEntry p)
      ∧ ∀ n, lookupStr (zoxideByName (zoxidePathsOf out)) n
          = ((zoxidePathsOf out).filter (fun p => decide (baseName p = n))).head? := by
  intro d out ansi dirPath
  refine ⟨?_, rfl, fun n => zoxideByName_lookup _ n⟩
  unfold list_session_files
  by_cases h : d.dirExists = true
  · rw [if_pos h]
    exact List.sorted_insertionSort pyStrLe _
  · rw [if_neg h]
    exact List.sorted_nil

/-- C2: when `<dir>/<name>.kitty-session` already exists,
`ensure_session_file` returns that path with the directory (and hence
the file's content) unchanged, and calling it again with the same
arguments returns the same path, again without writing. -/
theorem ensure_session_file_idempotent :
    ∀ (d : SessionDir) (dirPath name spath : String) (dbg : Bool)
      (tmplFS : List (String × String)) (tpl : Option String),
      (lookupStr d.entries (name ++ sessionExt)).isSome = true →
      ensure_session_file d dirPath name spath dbg tmplFS tpl
          = (d, Sum.inl (dirPath ++ "/" ++ (name ++ sessionExt)))
        ∧ ensure_session_file (ensure_session_file d dirPath name spath dbg tmplFS tpl).1
            dirPath name spath dbg tmplFS tpl
          = (d, Sum.inl (dirPath ++ "/" ++ (name ++ sessionExt))) := by
  intro d dirPath name spath dbg tmplFS tpl h
  have h1 : ensure_session_file d dirPath name spath dbg tmplFS tpl
      = (d, Sum.inl (dirPath ++ "/" ++ (name ++ sessionExt))) := by
    simp only [ensure_session_file]
    rw [if_pos h]
  refine ⟨h1, ?_⟩
  rw [h1]
  exact h1

theorem ensure_session_file_idempotent_witness :
    ensure_session_file ⟨true, [("proj.kitty-session", "data")], [], []⟩ "/S" "proj"
        "/x/proj" false [] none
      = (⟨true, [("proj.kitty-session", "data")], [], []⟩,
         Sum.inl "/S/proj.kitty-session") :=
  (ensure_session_file_idempotent ⟨true, [("proj.kitty-session", "data")], [], []⟩ "/S"
    "proj" "/x/proj" false [] none (by decide)).1

/-- C3, counterexample.  Rendering is NOT order-independent for every
token-free name and path: on the template `@@session@@session-path@@`
(whose two placeholder occurrences overlap), with the token-free values
`P = "p"` and `N = "n"`, the code's order (path placeholder first)
yields `@@sessionp` while the opposite order yields
`nsession-path@@`. -/
theorem render_order_dependent :
    renderTemplate "@@session@@session-path@@" "p" "n" = "@@sessionp"
    ∧ renderTemplateSessionFirst "@@session@@session-path@@" "p" "n" = "nsession-path@@"
    ∧ renderTemplate "@@session@@session-path@@" "p" "n"
        ≠ renderTemplateSessionFirst "@@session@@session-path@@" "p" "n" :=
  ⟨by decide, by decide, by decide⟩

/-- C3, amended.  Rendering replaces every occurrence of
`@@session-path@@` by `P` and then every occurrence of `@@session@@` by
`N`.  When the template decomposes as `u ++ @@session-path@@ ++ v ++
@@session@@ ++ w` with exactly one (leftmost, non-recombining)
occurrence of each placeholder — the `firstSplit` hypotheses, which in
particular hold when `u, v, w, N, P` are placeholder-free and create no
occurrence across boundaries — each placeholder is replaced exactly
once and both substitution orders give `u ++ P ++ v ++ N ++ w`. -/
theorem render_structured_template (u v w N P : List Char)
    (h1 : firstSplit sessionPathToken.data
        (u ++ sessionPathToken.data ++ v ++ sessionToken.data ++ w)
        = some (u, v ++ sessionToken.data ++ w))
    (h2 : firstSplit sessionPathToken.data (v ++ sessionToken.data ++ w) = none)
    (h3 : firstSplit sessionToken.data (u ++ P ++ (v ++ sessionToken.data ++ w))
        = some (u ++ P ++ v, w))
    (h4 : firstSplit sessionToken.data w = none)
    (h5 : firstSplit sessionToken.data
        (u ++ sessionPathToken.data ++ v ++ sessionToken.data ++ w)
        = some (u ++ sessionPathToken.data ++ v, w))
    (h6 : firstSplit sessionPathToken.data (u ++ sessionPathToken.data ++ v ++ N ++ w)
        = some (u, v ++ N ++ w))
    (h7 : firstSplit sessionPathToken.data (v ++ N ++ w) = none) :
    renderTemplate ⟨u ++ sessionPathToken.data ++ v ++ sessionToken.data ++ w⟩ ⟨P⟩ ⟨N⟩
        = ⟨u ++ P ++ v ++ N ++ w⟩
    ∧ renderTemplateSessionFirst
          ⟨u ++ sessionPathToken.data ++ v ++ sessionToken.data ++ w⟩ ⟨P⟩ ⟨N⟩
        = ⟨u ++ P ++ v ++ N ++ w⟩ := by
  have hp : sessionPathToken.data ≠ [] := by decide
  have hs : sessionToken.data ≠ [] := by decide
  have e1 : replaceAll sessionPathToken.data P
      (u ++ sessionPathToken.data ++ v ++ sessionToken.data ++ w)
      = u ++ P ++ (v ++ sessionToken.data ++ w) := by
    rw [replaceAll_of_firstSplit_some _ P hp _ _ _ h1,
      replaceAll_of_firstSplit_none _ P _ h2]
  have e2 : replaceAll sessionToken.data N (u ++ P ++ (v ++ sessionToken.data ++ w))
      = u ++ P ++ v ++ N ++ w := by
    rw [replaceAll_of_firstSplit_some _ N hs _ _ _ h3,
      replaceAll_of_firstSplit_none _ N _ h4]
  have e3 : replaceAll sessionToken.data N
      (u ++ sessionPathToken.data ++ v ++ sessionToken.data ++ w)
      = u ++ sessionPathToken.data ++ v ++ N ++ w := by
    rw [replaceAll_of_firstSplit_some _ N hs _ _ _ h5,
      replaceAll_of_firstSplit_none _ N _ h4]
  have e4 : replaceAll sessionPathToken.data P
      (u ++ sessionPathToken.data ++ v ++ N ++ w)
      = u ++ P ++ (v ++ N ++ w) := by
    rw [replaceAll_of_firstSplit_some _ P hp _ _ _ h6,
      replaceAll_of_firstSplit_none _ P _ h7]
  constructor
  · show (⟨replaceAll sessionToken.data N (replaceAll sessionPathToken.data P
        (u ++ sessionPathToken.data ++ v ++ sessionToken.data ++ w))⟩ : String) = _
    rw [e1, e2]
  · show (⟨replaceAll sessionPathToken.data P (replaceAll sessionToken.data N
        (u ++ sessionPathToken.data ++ v ++ sessionToken.data ++ w))⟩ : String) = _
    rw [e3, e4]
    exact congrArg String.mk (by simp [List.append_assoc])

theorem render_structured_template_witness :
    renderTemplate "x @@session-path@@ y @@session@@ z" "/p" "n" = "x /p y n z"
    ∧ renderTemplateSessionFirst "x @@session-path@@ y @@session@@ z" "/p" "n"
        = "x /p y n z" :=
  render_structured_template "x ".data " y ".data " z".data "n".data "/p".data
    (by decide) (by decide) (by decide) (by decide) (by decide) (by decide) (by decide)

/-- C4: `select_item` returns status 0 with the stripped stdout when the
selector exits 0; status 1 with an empty selection (and the user-facing
message) when the fzf binary is missing; and status 2 with an empty
selection when the selector exits non-zero. -/
theorem select_item_status_spec :
    ∀ (candidates prompt out : String) (ansi : Bool) (rc : Int),
      select_item candidates prompt ansi (ProcResult.ran 0 out) = (pyStrip out, 0, [])
      ∧ select_item candidates prompt ansi ProcResult.missing
          = ("", 1, ["kitty-zoxide-sessions: fzf command not found"])
      ∧ (rc ≠ 0 →
          select_item candidates prompt ansi (ProcResult.ran rc out) = ("", 2, [])) := by
  intro c p out a rc
  refine ⟨rfl, rfl, fun h => ?_⟩
  simp [select_item, h]

theorem select_item_status_spec_witness :
    select_item "a\nb" "session > " false (ProcResult.ran 7 "x") = ("", 2, []) :=
  (select_item_status_spec "a\nb" "session > " "x" false 7).2.2 (by decide)

/-- C5: selection resolution strips ANSI codes from the raw selection
and from every candidate label, the first exact match wins, no match
resolves to `none`; and a program-generated decorated label strips to
its undecorated form, so a selector echoing the decoration verbatim
resolves to the same entry as the undecorated label. -/
theorem resolve_selection_spec :
    (∀ (pre post : List Entry) (e : Entry) (sel : String),
        (∀ a ∈ pre, strip_ansi a.label ≠ strip_ansi sel) →
        strip_ansi e.label = strip_ansi sel →
        resolveSelection (pre ++ e :: post) sel = some e)
    ∧ (∀ (entries : List Entry) (sel : String),
        (∀ a ∈ entries, strip_ansi a.label ≠ strip_ansi sel) →
        resolveSelection entries sel = none)
    ∧ (∀ (entries : List Entry) (s1 s2 : String), strip_ansi s1 = strip_ansi s2 →
        resolveSelection entries s1 = resolveSelection entries s2)
    ∧ (∀ (tag rest : String), EscFree tag → EscFree rest →
        strip_ansi (label tag true ++ " " ++ rest) = label tag false ++ " " ++ rest) := by
  refine ⟨?_, ?_, ?_, ?_⟩
  · intro pre post e sel hpre he
    exact findEntry_append_cons pre post e (strip_ansi sel) hpre he
  · intro entries sel h
    exact findEntry_eq_none entries (strip_ansi sel) h
  · intro entries s1 s2 h
    unfold resolveSelection
    rw [h]
  · intro tag rest ht hr
    show (⟨stripAnsiL ('\x1b' :: '[' :: '1' :: 'm'
        :: (((tag.data ++ ['\x1b', '[', '0', 'm']) ++ [' ']) ++ rest.data))⟩ : String)
      = ⟨(tag.data ++ [' ']) ++ rest.data⟩
    rw [stripAnsiL_decorated tag.data rest.data ht hr]

theorem resolve_selection_spec_witness :
    resolveSelection
        [Entry.mk "[session] demo" EntryKind.sessionEntry "/S/demo.kitty-session"]
        "\x1b[1m[session]\x1b[0m demo"
      = some (Entry.mk "[session] demo" EntryKind.sessionEntry "/S/demo.kitty-session") :=
  resolve_selection_spec.1 []
    [] (Entry.mk "[session] demo" EntryKind.sessionEntry "/S/demo.kitty-session")
    "\x1b[1m[session]\x1b[0m demo" (by simp) (by decide)

/-- C6, counterexample.  The confirmation compares
`input().strip().lower()` to `"yes"`: the response `" yes"` is not the
literal `"yes"` (even case-insensitively), yet with one session file it
confirms the deletion — the run exits 0 and the file is gone, where the
claim requires exit 1 with every file still present. -/
theorem delete_all_trims_confirmation :
    deleteAllRun ⟨true, [("a.kitty-session", "x")], [], []⟩ (some " yes")
      = (⟨true, [], [], []⟩, 0)
    ∧ pyLower (pyStrip " yes") = "yes"
    ∧ pyLower " yes" ≠ "yes" :=
  ⟨by decide, by decide, by decide⟩

/-- C6, amended.  DeleteAll compares the typed response
case-insensitively to `"yes"` after stripping surrounding whitespace;
for every response failing that comparison (including end-of-input) the
run exits 1 with the directory untouched.  On confirmation (with
uniquely named files present) it attempts to delete every listed
session file: exactly the listed files whose unlink succeeds are
removed — a failure does not stop the batch — and the exit code is 1
iff some deletion failed, else 0. -/
theorem delete_all_spec :
    (∀ (d : SessionDir) (resp : Option String),
        confirm_delete_all resp = false → deleteAllRun d resp = (d, 1))
    ∧ (∀ (d : SessionDir) (resp : Option String),
        (d.entries.map Prod.fst).Nodup →
        confirm_delete_all resp = true →
        list_session_files d ≠ [] →
        deleteAllRun d resp
          = ({ d with entries :=
                keepAfterBatch d.entries (list_session_files d) d.badDeletes },
             if (list_session_files d).any (fun f => memStr d.badDeletes f)
               then 1 else 0)) := by
  constructor
  · intro d resp h
    by_cases he : (list_session_files d).isEmpty
    · simp [deleteAllRun, he]
    · simp [deleteAllRun, he, h]
  · intro d resp hnd hconf hne
    have hfiles : (list_session_files d).Nodup := by
      unfold list_session_files
      by_cases h : d.dirExists = true
      · rw [if_pos h]
        exact (List.perm_insertionSort pyStrLe _).symm.nodup
          ((hnd.filter globSessionMatch))
      · rw [if_neg h]
        exact List.nodup_nil
    have hpres : ∀ f ∈ list_session_files d, (lookupStr d.entries f).isSome = true := by
      intro f hf
      apply lookupStr_isSome_of_mem
      unfold list_session_files at hf
      by_cases h : d.dirExists = true
      · rw [if_pos h] at hf
        have := (List.mem_insertionSort pyStrLe).mp hf
        exact (List.mem_filter.mp this).1
      · rw [if_neg h] at hf
        exact absurd hf (List.not_mem_nil f)
    have hie : (list_session_files d).isEmpty = false := by
      cases h : list_session_files d with
      | nil => exact absurd h hne
      | cons a l => rfl
    have hrun : deleteAllRun d resp
        = (if (deleteBatch d (list_session_files d)).2 = true
            then ((deleteBatch d (list_session_files d)).1, 1)
            else ((deleteBatch d (list_session_files d)).1, 0)) := by
      simp [deleteAllRun, hie, hconf]
    rw [hrun, deleteBatch_spec (list_session_files d) d hfiles hpres]
    by_cases hb : (list_session_files d).any (fun f => memStr d.badDeletes f) = true
    · simp [hb]
    · simp only [Bool.not_eq_true] at hb
      simp [hb]

theorem delete_all_spec_witness :
    deleteAllRun
        ⟨true, [("a.kitty-session", "1"), ("b.kitty-session", "2")], [],
          ["a.kitty-session"]⟩ (some "YES")
      = (⟨true, [("a.kitty-session", "1")], [], ["a.kitty-session"]⟩, 1) := by
  have h := delete_all_spec.2
    ⟨true, [("a.kitty-session", "1"), ("b.kitty-session", "2")], [], ["a.kitty-session"]⟩
    (some "YES") (by decide) (by decide) (by decide)
  exact h.trans (by decide)

/-- C7, counterexample.  An invalid flag combination does exit 1 before
dispatch, but not before every side effect: `main` runs `setup_logging`
first, which on a fresh system creates the log directory and the log
file — a filesystem change. -/
theorem invalid_combo_touches_filesystem :
    mainUpToDispatch ⟨false, true, true, false, false, false, none⟩
        ⟨false, false, false, true⟩
      = Except.ok ([Effect.mkdirLogDir, Effect.createLogFile], MainStage.exited 1)
    ∧ [Effect.mkdirLogDir, Effect.createLogFile].any filesystemEffect = true :=
  ⟨rfl, rfl⟩

/-- C7, amended.  For every invalid flag combination (`edit` with a
delete flag, or `delete` with `delete-all`), `main` exits 1 before
dispatching any operation, and the only effects performed are those of
logging initialization (creating the log directory and/or log file when
missing): no session-directory change and no external process
invocation. -/
theorem invalid_combo_fails_fast :
    ∀ (f : Flags) (w : LogWorld) (effs : List Effect),
      ((f.edit && (f.delete || f.deleteAll)) || (f.delete && f.deleteAll)) = true →
      setup_logging w = Except.ok effs →
      mainUpToDispatch f w = Except.ok (effs, MainStage.exited 1)
      ∧ ∀ e ∈ effs, e = Effect.mkdirLogDir ∨ e = Effect.createLogFile := by
  intro f w effs hinv hlog
  constructor
  · obtain ⟨fd, fe, fD, fA, fan, fac, ft⟩ := f
    cases fe <;> cases fD <;> cases fA <;> simp_all [mainUpToDispatch, hlog]
  · intro e he
    unfold setup_logging at hlog
    by_cases hh : w.hasHandlers = true
    · rw [if_pos hh] at hlog
      simp only [Except.ok.injEq] at hlog
      rw [← hlog] at he
      exact absurd he (List.not_mem_nil e)
    · rw [if_neg hh] at hlog
      by_cases hm : w.mkdirOk = true
      · rw [if_neg (by simp [hm])] at hlog
        simp only [Except.ok.injEq] at hlog
        rw [← hlog] at he
        rcases List.mem_append.mp he with h | h
        · by_cases hd : w.logDirExists = true
          · rw [if_pos hd] at h
            exact absurd h (List.not_mem_nil e)
          · rw [if_neg hd] at h
            simp only [List.mem_singleton] at h
            exact Or.inl h
        · by_cases hf : w.logFileExists = true
          · rw [if_pos hf] at h
            exact absurd h (List.not_mem_nil e)
          · rw [if_neg hf] at h
            simp only [List.mem_singleton] at h
            exact Or.inr h
      · rw [if_pos (by simp [Bool.not_eq_true] at hm; simp [hm])] at hlog
        exact absurd hlog (by simp)

theorem invalid_combo_fails_fast_witness :
    mainUpToDispatch ⟨false, true, true, false, false, false, none⟩
        ⟨false, true, true, true⟩
      = Except.ok ([], MainStage.exited 1) :=
  (invalid_combo_fails_fast ⟨false, true, true, false, false, false, none⟩
    ⟨false, true, true, true⟩ [] (by decide) rfl).1

/-- C8: the claim states that `setup_logging` tolerates a failing
directory creation without raising.  The code has no try/except: when
the logger has no handler yet and `log_dir.mkdir` fails, the `OSError`
propagates out of `setup_logging` (and out of `main`), aborting the
invocation — the code contradicts the spec's "must never crash". -/
theorem setup_logging_raises_on_mkdir_failure :
    setup_logging ⟨false, false, false, false⟩ = Except.error "OSError" := rfl

/-- C9, counterexample.  With an empty session directory and zoxide
reporting exactly `/home/u/myrepo`, the single candidate's undecorated
label is `[zoxide] /home/u/myrepo` — not `myrepo` as the claim states —
and with ANSI enabled the label is the bold-decorated
`ESC[1m[zoxide]ESC[0m /home/u/myrepo`, not the plain
`[zoxide] /home/u/myrepo`. -/
theorem launch_scenario_label_counterexample :
    (buildEntries [] ["/home/u/myrepo"] false "/S").map Entry.label
        = ["[zoxide] /home/u/myrepo"]
    ∧ (buildEntries [] ["/home/u/myrepo"] true "/S").map Entry.label
        = ["\x1b[1m[zoxide]\x1b[0m /home/u/myrepo"]
    ∧ ("[zoxide] /home/u/myrepo" : String) ≠ "myrepo" :=
  ⟨by decide, by decide, by decide⟩

/-- C9, amended.  Empty session directory, zoxide returning exactly
`/home/u/myrepo`: Launch presents one candidate labeled
`[zoxide] /home/u/myrepo` (undecorated; bold-tagged when ANSI is on);
selecting it creates `myrepo.kitty-session` from the default template
with the two literal substitutions applied, then invokes
`kitten @ action goto_session` on that file's path and exits with that
action's code. -/
theorem launch_scenario_spec :
    buildEntries [] ["/home/u/myrepo"] false "/S"
        = [Entry.mk "[zoxide] /home/u/myrepo" EntryKind.pathEntry "/home/u/myrepo"]
    ∧ label "[zoxide]" true ++ " " ++ "/home/u/myrepo"
        = "\x1b[1m[zoxide]\x1b[0m /home/u/myrepo"
    ∧ sessionSelectionRun ⟨false, [], [], []⟩ "/S" false false none
          [("default.kitty-session", default_template)]
          (ProcResult.ran 0 "/home/u/myrepo\n") true
          (ProcResult.ran 0 "[zoxide] /home/u/myrepo")
          (launch_handle_session (ProcResult.ran 0 ""))
        = (⟨true,
            [("myrepo.kitty-session",
              renderTemplate default_template "/home/u/myrepo" "myrepo")], [], []⟩,
           0,
           [Effect.procRun ["kitten", "@", "action", "goto_session",
             "/S/myrepo.kitty-session"]])
    ∧ renderTemplate default_template "/home/u/myrepo" "myrepo"
        = "new_tab myrepo\ncd /home/u/myrepo\nlaunch --title \"myrepo\"\n" :=
  ⟨by decide, by decide, by decide, by decide⟩

/-- C10: `DeleteSession.run` derives the file to unlink solely from the
selector's returned string — for every selector stdout whose stripped
form `s` is non-empty (status 0), it attempts to unlink
`session_dir/<s>.kitty-session` whether or not `s` was among the
presented stems; the unlink's failure yields exit 1 (directory
untouched) and its success yields exit 0. -/
theorem delete_session_uses_selection_verbatim :
    ∀ (d : SessionDir) (dirPath : String) (ansi : Bool) (out : String),
      list_session_files d ≠ [] →
      pyStrip out ≠ "" →
      deleteSessionRun d dirPath ansi (ProcResult.ran 0 out)
        = match unlinkFile d (pyStrip out ++ sessionExt) with
          | some d2 => (d2, 0, [dirPath ++ "/" ++ (pyStrip out ++ sessionExt)])
          | none => (d, 1, [dirPath ++ "/" ++ (pyStrip out ++ sessionExt)]) := by
  intro d dirPath ansi out hne hsel
  have hie : (list_session_files d).isEmpty = false := by
    cases h : list_session_files d with
    | nil => exact absurd h hne
    | cons a l => rfl
  cases hu : unlinkFile d (pyStrip out ++ sessionExt) with
  | none => simp [deleteSessionRun, select_item, hie, hsel, hu]
  | some d2 => simp [deleteSessionRun, select_item, hie, hsel, hu]

theorem delete_session_uses_selection_verbatim_witness :
    deleteSessionRun ⟨true, [("a.kitty-session", "x")], [], []⟩ "/S" false
        (ProcResult.ran 0 "ghost")
      = (⟨true, [("a.kitty-session", "x")], [], []⟩, 1, ["/S/ghost.kitty-session"]) := by
  have h := delete_session_uses_selection_verbatim
    ⟨true, [("a.kitty-session", "x")], [], []⟩ "/S" false "ghost" (by decide) (by decide)
  exact h.trans (by decide)

end KittyZoxide
